import Mathlib

/-!
Verification of the recurring-schedule / budget / goal core of a
personal-finance backend (API-FinanceApp).

The repository's core logic lives in:
- `src/routes/recurring.js` — `calculateNextExecution` and the
  `POST /execute` materialization pass;
- `src/unnamed/part_001` (the Budget model) — `calculateSpent`;
- `src/models/Goal.js` — `addContribution` / `removeContribution` and the
  pre-save completion hook;
- `src/routes/transactions.js` — `updateBudgetSpent` and the goals POST
  handler's `monthsDiff` computation.

Dates are modeled at day granularity as (year, 0-based month, day) triples
with JavaScript `Date` field-setter semantics: `setDate`/`setMonth`/
`setFullYear` accept out-of-range components and normalize by rolling the
excess into the following months, exactly as the JS engine does.  All the
code paths embedded here only ever produce day components `≥ 1` and
`≤ 44`, so forward rolling with a small amount of fuel is a complete model
of the normalization those calls can trigger.  Times-of-day are carried
unchanged by every mutator involved, so they are omitted.  JS `%` is
truncating division; every remainder taken below has a non-negative
dividend and positive divisor, where truncating and Euclidean remainder
coincide, so `Int.emod` is used.  Monetary amounts (JS numbers) are
modeled as exact integers: every monetary value in the spec's scenarios is
a whole number, the properties claimed of them are ring identities
independent of the numeric carrier, and IEEE-754 rounding is outside the
spec's scope.
-/

/-- A JavaScript `Date`, restricted to its calendar-day fields:
`year` (astronomical), `month` (0-based, January = 0) and `day`
(1-based day of month). -/
structure JDate where
  year : Int
  month : Int
  day : Int
deriving DecidableEq, Repr

/-- Gregorian leap-year rule, as implemented by JS `Date`. -/
def isLeapYear (y : Int) : Bool :=
  (y % 4 == 0 && y % 100 != 0) || (y % 400 == 0)

/-- Number of days of month `m` (0-based) of year `y`.
Mirrors `new Date(y, m + 1, 0).getDate()` for `0 ≤ m ≤ 11`. -/
def daysInMonth (y : Int) (m : Int) : Int :=
  if m = 1 then (if isLeapYear y then 29 else 28)
  else if m = 3 ∨ m = 5 ∨ m = 8 ∨ m = 10 then 30
  else 31

/-- JS `Date` normalization of an excessive day component: while the day
exceeds the length of the current month, roll into the next month.  The
fuel bounds the recursion; every call site below passes day components at
most `44`, which need at most two rolling steps, so fuel `4` makes this a
complete model there. -/
def rollDay : Nat → Int → Int → Int → JDate
  | 0, y, m, d => ⟨y, m, d⟩
  | fuel + 1, y, m, d =>
    if daysInMonth y m < d then
      if m = 11 then rollDay fuel (y + 1) 0 (d - daysInMonth y m)
      else rollDay fuel y (m + 1) (d - daysInMonth y m)
    else ⟨y, m, d⟩

/-- JS `date.setDate(d)`: set the day-of-month, normalizing overflow. -/
def setDate (dt : JDate) (d : Int) : JDate :=
  rollDay 4 dt.year dt.month d

/-- JS `date.setMonth(mm)`: set the (0-based) month, first normalizing the
month into the year and then the (unchanged) day into the new month. -/
def setMonth (dt : JDate) (mm : Int) : JDate :=
  rollDay 4 (dt.year + mm / 12) (mm % 12) dt.day

/-- JS `date.setFullYear(y)`: set the year, normalizing the (unchanged)
month/day pair (e.g. Feb 29 of a leap year becomes Mar 1 of a common
target year). -/
def setFullYear (dt : JDate) (y : Int) : JDate :=
  rollDay 4 y dt.month dt.day

/-- Days since the civil epoch 1970-01-01 for a (1-based month) civil
date; the standard days-from-civil computation.  Only used to define the
weekday, `getDay`. -/
def daysFromCivil (y m d : Int) : Int :=
  let y' := if m ≤ 2 then y - 1 else y
  let era := (if 0 ≤ y' then y' else y' - 399) / 400
  let yoe := y' - era * 400
  let mp := (m + 9) % 12
  let doy := (153 * mp + 2) / 5 + d - 1
  let doe := yoe * 365 + yoe / 4 - yoe / 100 + doy
  era * 146097 + doe - 719468

/-- JS `date.getDay()`: weekday, `0` = Sunday.  1970-01-01 was a
Thursday (`4`). -/
def getDay (dt : JDate) : Int :=
  (daysFromCivil dt.year (dt.month + 1) dt.day + 4) % 7

/-- Chronological strict order on day-granularity dates (lexicographic on
year, month, day; for normalized dates this is exactly the order of the
underlying JS timestamps). -/
def dateLt (a b : JDate) : Bool :=
  if a.year < b.year then true
  else if b.year < a.year then false
  else if a.month < b.month then true
  else if b.month < a.month then false
  else decide (a.day < b.day)

/-- Chronological non-strict order on day-granularity dates. -/
def dateLe (a b : JDate) : Bool :=
  !(dateLt b a)

/-- A date is well-formed when its month is in `0..11` and its day lies
within the month. -/
def WfDate (dt : JDate) : Prop :=
  0 ≤ dt.month ∧ dt.month ≤ 11 ∧ 1 ≤ dt.day ∧ dt.day ≤ daysInMonth dt.year dt.month

instance : DecidablePred WfDate := fun dt => by
  unfold WfDate; infer_instance

/-- The four schedule frequencies of `RecurringTransaction`. -/
inductive Frequency where
  | daily
  | weekly
  | monthly
  | yearly
deriving DecidableEq, Repr

/-- `calculateNextExecution` from `src/routes/recurring.js` (lines
177-204).  `dayOfWeek` is the weekly anchor (0-6), `dayOfMonth` the
monthly anchor (1-31); the yearly anchor is the source's `dayOfYear`
string `"MM-DD"`, modeled already split and parsed as the pair
`(month, day)` of integers. -/
def calculateNextExecution (currentDate : JDate) (frequency : Frequency)
    (dayOfWeek : Int) (dayOfMonth : Int) (dayOfYear : Int × Int) : JDate :=
  match frequency with
  | .daily => setDate currentDate (currentDate.day + 1)
  | .weekly =>
    let daysUntilTarget := (dayOfWeek + 7 - getDay currentDate) % 7
    setDate currentDate
      (currentDate.day + (if daysUntilTarget = 0 then 7 else daysUntilTarget))
  | .monthly =>
    let next := setMonth currentDate (currentDate.month + 1)
    setDate next (min dayOfMonth (daysInMonth next.year next.month))
  | .yearly =>
    let next := setFullYear currentDate (currentDate.year + 1)
    let next := setMonth next (dayOfYear.1 - 1)
    setDate next dayOfYear.2

/-- Validity of the frequency-specific anchor, as constrained by the
`RecurringTransaction` schema (`dayOfWeek` 0-6, `dayOfMonth` 1-31) and,
for yearly, by `"MM-DD"` denoting a month 1-12 and a day 1-31. -/
def anchorValid (frequency : Frequency) (dayOfWeek : Int) (dayOfMonth : Int)
    (dayOfYear : Int × Int) : Prop :=
  match frequency with
  | .daily => True
  | .weekly => 0 ≤ dayOfWeek ∧ dayOfWeek ≤ 6
  | .monthly => 1 ≤ dayOfMonth ∧ dayOfMonth ≤ 31
  | .yearly => 1 ≤ dayOfYear.1 ∧ dayOfYear.1 ≤ 12 ∧ 1 ≤ dayOfYear.2 ∧ dayOfYear.2 ≤ 31

instance (f : Frequency) (dow dom : Int) (doy : Int × Int) :
    Decidable (anchorValid f dow dom doy) := by
  unfold anchorValid; cases f <;> infer_instance

/-- The monthly rule as the spec words it: advance one calendar month,
then clamp the day-of-month to `min(anchor.dayOfMonth, daysInTargetMonth)`
— the target month being exactly the month after the current one. -/
def monthlyNextSpec (dt : JDate) (dayOfMonth : Int) : JDate :=
  let y := dt.year + (dt.month + 1) / 12
  let m := (dt.month + 1) % 12
  ⟨y, m, min dayOfMonth (daysInMonth y m)⟩

/-- `monthsDiff` from the goals POST handler in `src/routes/transactions.js`
(lines 1582-1591): month distance used for goal pacing, with a `+1` when
the target day-of-month has not yet occurred and a floor of `1`. -/
def monthsDiff (now target : JDate) : Int :=
  let base := (target.year - now.year) * 12 + (target.month - now.month)
  let withPartial := if now.day < target.day then base + 1 else base
  max withPartial 1

/-- `monthsBetween` as the spec words it: `(to.year - from.year) * 12 +
(to.month - from.month)`, plus `1` when `to.day > from.day`, floored
at `1`. -/
def monthsBetweenSpec (f t : JDate) : Int :=
  max ((t.year - f.year) * 12 + (t.month - f.month)
        + (if f.day < t.day then 1 else 0)) 1

/-- Transaction type. -/
inductive TxType where
  | income
  | expense
deriving DecidableEq, Repr

/-- Transaction status (richer Transaction schema; defaults to
`completed`). -/
inductive TxStatus where
  | completed
  | pending
  | cancelled
deriving DecidableEq, Repr

/-- A stored transaction.  The repository carries two divergent
Transaction schemas: a legacy one with a flat string `category` and the
richer one with `categoryId`, `status` and soft-delete fields; one record
type with both (optional) category fields covers them.  Category labels
and category ids are both modeled as `Nat` identifiers, user ids as
`Nat`, amounts as exact rationals. -/
structure Transaction where
  userId : Nat
  type : TxType
  amount : Int
  category : Option Nat := none
  categoryId : Option Nat := none
  description : String := ""
  date : JDate
  status : TxStatus := .completed
  isDeleted : Bool := false
  isRecurring : Bool := false
  recurringId : Option Nat := none
deriving DecidableEq, Repr

/-- A `RecurringTransaction` document (`src/models/RecurringTransaction.js`). -/
structure RecurringTransaction where
  id : Nat
  userId : Nat
  type : TxType
  amount : Int
  category : Nat
  description : String := ""
  frequency : Frequency
  dayOfWeek : Int := 0
  dayOfMonth : Int := 1
  dayOfYear : Int × Int := (1, 1)
  startDate : JDate
  endDate : Option JDate := none
  isActive : Bool := true
  nextExecution : JDate
  lastExecution : Option JDate := none
  executionCount : Int := 0
  maxExecutions : Option Int := none
deriving DecidableEq, Repr

/-- A `Budget` document (`src/unnamed/part_001`). -/
structure Budget where
  userId : Nat
  categoryId : Nat
  amount : Int
  startDate : JDate
  endDate : JDate
  spent : Int := 0
  alertThreshold : Int := 80
  alertSent : Bool := false
  isActive : Bool := true
deriving DecidableEq, Repr

/-- The persistent collections the recurring-execution pass touches. -/
structure SysState where
  transactions : List Transaction
  recurrings : List RecurringTransaction
  budgets : List Budget
deriving DecidableEq, Repr

/-- The match stage of `budgetSchema.methods.calculateSpent`
(`src/unnamed/part_001`, lines 116-143): owner, category, expense,
completed, not soft-deleted, date within the budget window (`$gte`/`$lte`,
inclusive on both ends). -/
def spentMatch (b : Budget) (t : Transaction) : Bool :=
  t.userId == b.userId && t.categoryId == some b.categoryId
    && t.type == TxType.expense && t.status == TxStatus.completed
    && !t.isDeleted
    && dateLe b.startDate t.date && dateLe t.date b.endDate

/-- `budgetSchema.methods.calculateSpent`: the aggregation pipeline sums
`amount` over the matched transactions; when no document matches, the
`$group` stage produces no row and the method falls back to `0`
(`result.length > 0 ? result[0].total : 0`). -/
def calculateSpent (b : Budget) (txs : List Transaction) : Int :=
  let matched := txs.filter (spentMatch b)
  if matched.isEmpty then 0 else (matched.map (fun t => t.amount)).sum

/-- The recompute rule as the spec words it: the sum of `amount` over all
transactions whose owner matches, category matches, type is expense,
status is completed, the soft-delete flag is not set, and whose date lies
in `[budget.startDate, budget.endDate]` inclusive on both ends. -/
def specRecomputeSpent (b : Budget) (txs : List Transaction) : Int :=
  ((txs.filter (fun t =>
      decide (t.userId = b.userId ∧ t.categoryId = some b.categoryId
        ∧ t.type = TxType.expense ∧ t.status = TxStatus.completed
        ∧ t.isDeleted = false
        ∧ dateLe b.startDate t.date = true ∧ dateLe t.date b.endDate = true))).map
    (fun t => t.amount)).sum

/-- The `pendingRecurring` query of `POST /execute`
(`src/routes/recurring.js`, lines 110-122).  The source object literal
spells two `$or` keys; in JavaScript the second silently overwrites the
first, so the query MongoDB receives is
`{userId, isActive: true, nextExecution: {$lte: now},
  $or: [maxExecutions missing, executionCount < maxExecutions]}` —
the `endDate` clause is discarded. -/
def isPending (now : JDate) (uid : Nat) (r : RecurringTransaction) : Bool :=
  r.userId == uid && r.isActive && dateLe r.nextExecution now
    && (match r.maxExecutions with
        | none => true
        | some mx => decide (r.executionCount < mx))

/-- The due-selection rule as the spec words it: `active == true` and
`nextDue <= now`, excluding definitions whose `endDate` (when set) is
before `now`, and excluding definitions whose `executionCount` is at or
beyond `maxExecutions` (when set). -/
def specDue (now : JDate) (uid : Nat) (r : RecurringTransaction) : Bool :=
  r.userId == uid && r.isActive && dateLe r.nextExecution now
    && (match r.endDate with
        | none => true
        | some e => !(dateLt e now))
    && (match r.maxExecutions with
        | none => true
        | some mx => decide (r.executionCount < mx))

/-- The transaction materialized from a due definition
(`src/routes/recurring.js`, lines 128-137): dated at the definition's
current `nextExecution`, tagged recurring with a back-reference; the
fields the route does not set take the Transaction schema defaults. -/
def materialize (r : RecurringTransaction) : Transaction :=
  { userId := r.userId
    type := r.type
    amount := r.amount
    category := some r.category
    description := r.description ++ " (Recorrente)"
    date := r.nextExecution
    isRecurring := true
    recurringId := some r.id }

/-- One iteration of the `POST /execute` loop over a due definition
(`src/routes/recurring.js`, lines 126-164): materialize a transaction at
the current `nextExecution`, advance `nextExecution` by one
`calculateNextExecution` step, record `lastExecution`, increment
`executionCount`, then deactivate when the (incremented) count reaches a
truthy `maxExecutions` (JS `recurring.maxExecutions &&` — `0` is falsy)
or when the new `nextExecution` exceeds a set `endDate`. -/
def executeStep (r : RecurringTransaction) : Transaction × RecurringTransaction :=
  let t := materialize r
  let next := calculateNextExecution r.nextExecution r.frequency
      r.dayOfWeek r.dayOfMonth r.dayOfYear
  let r1 : RecurringTransaction :=
    { r with lastExecution := some r.nextExecution
             nextExecution := next
             executionCount := r.executionCount + 1 }
  let r2 := if (match r1.maxExecutions with
                | none => false
                | some mx => mx != 0 && decide (mx ≤ r1.executionCount))
            then { r1 with isActive := false } else r1
  let r3 := if (match r2.endDate with
                | none => false
                | some e => dateLt e next)
            then { r2 with isActive := false } else r2
  (t, r3)

/-- The whole `POST /execute` pass: select the pending definitions, and
for each one append its materialized transaction and save the advanced
definition.  Each loop iteration touches only its own definition and the
new transaction, so the sequential loop is equivalent to this batch form.
No code in the pass reads or writes budgets. -/
def executePass (now : JDate) (uid : Nat) (s : SysState) : SysState :=
  let pending := s.recurrings.filter (isPending now uid)
  { s with
    transactions := s.transactions ++ pending.map (fun r => (executeStep r).1)
    recurrings := s.recurrings.map (fun r =>
      if isPending now uid r then (executeStep r).2 else r) }

/-- Status of a savings goal (`src/models/Goal.js`). -/
inductive GoalStatus where
  | active
  | completed
  | paused
  | cancelled
deriving DecidableEq, Repr

/-- A contribution subdocument of a goal.  Mongoose assigns each pushed
subdocument a fresh unique `_id`; the id is modeled as a `Nat` supplied
by the caller. -/
structure Contribution where
  id : Nat
  amount : Int
  date : JDate
  note : String := ""
  isAutomatic : Bool := false
deriving DecidableEq, Repr

/-- A `Goal` document (richer schema of `src/models/Goal.js`). -/
structure Goal where
  userId : Nat
  targetAmount : Int
  currentAmount : Int := 0
  targetDate : JDate
  startDate : JDate
  status : GoalStatus := .active
  lastContribution : Option JDate := none
  contributions : List Contribution := []
  completedAt : Option JDate := none
deriving DecidableEq, Repr

/-- The `goalSchema.pre('save')` hook (`src/models/Goal.js`, lines
211-223): reject when `targetDate <= startDate`; otherwise, when the goal
is active and `currentAmount >= targetAmount`, mark it completed with
`completedAt` stamped at the wall-clock time `now`. -/
def preSave (now : JDate) (g : Goal) : Except String Goal :=
  if dateLe g.targetDate g.startDate then
    Except.error "Data da meta deve ser posterior a data de inicio"
  else if g.targetAmount ≤ g.currentAmount ∧ g.status = GoalStatus.active then
    Except.ok { g with status := .completed, completedAt := some now }
  else
    Except.ok g

/-- `goalSchema.methods.addContribution` (`src/models/Goal.js`, lines
226-252) followed by the `save` it returns: reject non-positive amounts
and non-active goals before any mutation; otherwise push the contribution
(with a fresh subdocument id `cid` and `date = now`), add to
`currentAmount`, stamp `lastContribution`, complete the goal when the
target is reached, and save. -/
def addContribution (g : Goal) (now : JDate) (cid : Nat) (amount : Int)
    (note : String) (isAutomatic : Bool) : Except String Goal :=
  if amount ≤ 0 then
    Except.error "Valor da contribuicao deve ser maior que zero"
  else if g.status ≠ GoalStatus.active then
    Except.error "Meta deve estar ativa para receber contribuicoes"
  else
    let g1 : Goal :=
      { g with contributions :=
                 g.contributions ++ [{ id := cid, amount := amount, date := now
                                       note := note, isAutomatic := isAutomatic }]
               currentAmount := g.currentAmount + amount
               lastContribution := some now }
    let g2 := if g1.targetAmount ≤ g1.currentAmount then
                { g1 with status := .completed, completedAt := some now }
              else g1
    preSave now g2

/-- Mongoose `contributions.pull(cid)`: remove the subdocument with the
given id.  Subdocument ids are unique, so removing the first occurrence
removes exactly the found contribution. -/
def pullContribution (cid : Nat) : List Contribution → List Contribution
  | [] => []
  | c :: cs => if c.id = cid then cs else c :: pullContribution cid cs

/-- `goalSchema.methods.removeContribution` (`src/models/Goal.js`, lines
255-271) followed by the `save` it returns: look the contribution up by
id (`contributions.id(cid)`), reject when missing; otherwise subtract its
amount, pull it, and revert a completed goal that fell below its target
back to active with `completedAt` cleared. -/
def removeContribution (g : Goal) (now : JDate) (cid : Nat) : Except String Goal :=
  match g.contributions.find? (fun c => c.id == cid) with
  | none => Except.error "Contribuicao nao encontrada"
  | some c =>
    let g1 : Goal :=
      { g with currentAmount := g.currentAmount - c.amount
               contributions := pullContribution cid g.contributions }
    let g2 := if g1.status = GoalStatus.completed ∧ g1.currentAmount < g1.targetAmount
              then { g1 with status := .active, completedAt := none }
              else g1
    preSave now g2

/-- A goal-ledger operation: either an `addContribution` call or a
`removeContribution` call, with its wall-clock time. -/
inductive GoalOp where
  | add (now : JDate) (cid : Nat) (amount : Int) (note : String) (isAutomatic : Bool)
  | remove (now : JDate) (cid : Nat)
deriving DecidableEq, Repr

/-- Apply one goal-ledger operation to the persisted goal: a rejected call
(thrown validation error or failed save) leaves the persisted document
unchanged. -/
def applyGoalOp (g : Goal) : GoalOp → Goal
  | .add now cid amount note isAutomatic =>
    match addContribution g now cid amount note isAutomatic with
    | .ok g' => g'
    | .error _ => g
  | .remove now cid =>
    match removeContribution g now cid with
    | .ok g' => g'
    | .error _ => g

/-- Apply a finite sequence of goal-ledger operations. -/
def applyGoalOps (g : Goal) (ops : List GoalOp) : Goal :=
  ops.foldl applyGoalOp g

/-- Sum of the amounts of a goal's contributions. -/
def sumContributions (g : Goal) : Int :=
  (g.contributions.map (fun c => c.amount)).sum

/-- Claim C3 as stated: whenever the execute pass materializes an expense
with a category from a due definition, every active budget of that owner
matching that category ends the pass with `spent` equal to the full
recomputed sum over the post-pass transaction store (which includes the
newly materialized transaction). -/
def claimC3 (now : JDate) (uid : Nat) (s : SysState) : Prop :=
  ∀ r ∈ s.recurrings.filter (isPending now uid),
    r.type = TxType.expense →
    ∀ b ∈ (executePass now uid s).budgets,
      b.isActive = true → b.userId = r.userId → b.categoryId = r.category →
      b.spent = calculateSpent b (executePass now uid s).transactions

/-- Evaluation time for the C2 failing input: 2024-06-01. -/
def c2now : JDate := ⟨2024, 5, 1⟩

/-- End date of the C2 failing input: 2024-02-01, months before `c2now`. -/
def c2end : JDate := ⟨2024, 1, 1⟩

/-- C2 failing input: an active monthly definition, due since 2024-01-01,
whose `endDate` 2024-02-01 lies strictly before the evaluation time
2024-06-01. -/
def c2def : RecurringTransaction :=
  { id := 1, userId := 1, type := .expense, amount := 50, category := 3
    frequency := .monthly, dayOfMonth := 1
    startDate := ⟨2024, 0, 1⟩, endDate := some c2end
    nextExecution := ⟨2024, 0, 1⟩ }

/-- C3 counterexample: an active budget for category `5` of user `1` over
March 2024, with a stale `spent` of `0`. -/
def c3budget : Budget :=
  { userId := 1, categoryId := 5, amount := 500
    startDate := ⟨2024, 2, 1⟩, endDate := ⟨2024, 2, 31⟩, spent := 0 }

/-- C3 counterexample: a completed, non-deleted expense of `100` for
category `5` inside the budget window. -/
def c3tx : Transaction :=
  { userId := 1, type := .expense, amount := 100, categoryId := some 5
    date := ⟨2024, 2, 10⟩ }

/-- C3 counterexample: a due expense definition for category `5`. -/
def c3rec : RecurringTransaction :=
  { id := 7, userId := 1, type := .expense, amount := 100, category := 5
    frequency := .monthly, dayOfMonth := 15
    startDate := ⟨2024, 0, 15⟩, nextExecution := ⟨2024, 2, 15⟩ }

/-- C3 counterexample system state. -/
def c3state : SysState :=
  { transactions := [c3tx], recurrings := [c3rec], budgets := [c3budget] }

/-- Evaluation time for the C3 counterexample: 2024-03-20. -/
def c3now : JDate := ⟨2024, 2, 20⟩

/-- C5 scenario budget: window `[2024-03-01, 2024-03-31]`, category `2`,
owner `1`. -/
def c5budget : Budget :=
  { userId := 1, categoryId := 2, amount := 1000
    startDate := ⟨2024, 2, 1⟩, endDate := ⟨2024, 2, 31⟩ }

/-- C5 scenario transactions: three matching expenses of `100`, `50`, `25`
(the last dated on the inclusive window end) and one soft-deleted expense
of `999` in range. -/
def c5txs : List Transaction :=
  [ { userId := 1, type := .expense, amount := 100, categoryId := some 2
      date := ⟨2024, 2, 5⟩ },
    { userId := 1, type := .expense, amount := 50, categoryId := some 2
      date := ⟨2024, 2, 15⟩ },
    { userId := 1, type := .expense, amount := 25, categoryId := some 2
      date := ⟨2024, 2, 31⟩ },
    { userId := 1, type := .expense, amount := 999, categoryId := some 2
      date := ⟨2024, 2, 20⟩, isDeleted := true } ]

/-- C7/C9 witness goal: target `1000`, current `900` from one recorded
contribution, active, window `[2024-01-01, 2024-12-31]`. -/
def c9goal : Goal :=
  { userId := 1, targetAmount := 1000, currentAmount := 900
    targetDate := ⟨2024, 11, 31⟩, startDate := ⟨2024, 0, 1⟩
    contributions := [{ id := 1, amount := 900, date := ⟨2024, 0, 2⟩ }] }

/-- C10 witness state: a single daily definition more than a year overdue
(`nextExecution` 2023-01-05 at evaluation time 2024-06-01). -/
def c10rec : RecurringTransaction :=
  { id := 7, userId := 1, type := .expense, amount := 20, category := 4
    frequency := .daily
    startDate := ⟨2023, 0, 5⟩, nextExecution := ⟨2023, 0, 5⟩ }

/-- C10 witness system state. -/
def c10state : SysState :=
  { transactions := [], recurrings := [c10rec], budgets := [] }

/-- Evaluation time for the C10 witness: 2024-06-01. -/
def c10now : JDate := ⟨2024, 5, 1⟩

/-! ### Theorems -/

/-- Claim C1 (code_bug evidence): at the failing input — current date
2024-01-31, monthly frequency, anchor day 31 — the code's
`calculateNextExecution` lands on 2024-03-31 (month index 2), skipping
February entirely, because JS `setMonth` overflows Jan 31 to Mar 2 before
the clamp runs;  the spec's monthly rule (advance one calendar month, then
clamp) yields 2024-02-29 (month index 1). -/
theorem c1_monthly_overflow_eval :
    calculateNextExecution ⟨2024, 0, 31⟩ .monthly 0 31 (1, 1) = ⟨2024, 2, 31⟩ ∧
    monthlyNextSpec ⟨2024, 0, 31⟩ 31 = ⟨2024, 1, 29⟩ ∧
    calculateNextExecution ⟨2024, 0, 31⟩ .monthly 0 31 (1, 1) ≠
      monthlyNextSpec ⟨2024, 0, 31⟩ 31 := by
  refine ⟨by decide, by decide, by decide⟩

/-- Claim C2 (code_bug evidence): the definition `c2def` is active, due,
and its `endDate` (2024-02-01) lies strictly before the evaluation time
(2024-06-01); the claim says the execute pass excludes it, yet the
shipped query — whose `endDate` `$or` clause is overwritten by the second
`$or` key of the same object literal — still selects it. -/
theorem c2_enddate_filter_lost :
    isPending c2now 1 c2def = true ∧
    c2def.endDate = some c2end ∧ dateLt c2end c2now = true ∧
    specDue c2now 1 c2def = false := by
  refine ⟨by decide, by decide, by decide, by decide⟩

/-- Claim C3 (counterexample): in `c3state` the execute pass at `c3now`
materializes an expense of the due definition `c3rec` (category 5,
owner 1), and the matching active budget `c3budget` still ends the pass
with its stale `spent = 0`, not the recomputed sum `100` — the pass never
invokes the Budget Spend Aggregator. -/
theorem c3_counterexample : ¬ claimC3 c3now 1 c3state := by
  unfold claimC3
  decide

/-- Claim C3 (amended): the `POST /execute` pass performs no budget
recomputation at all — the budget collection, `spent` fields included, is
left exactly unchanged by the pass; `updateBudgetSpent` is invoked only
from the transactions routes. -/
theorem c3_execute_leaves_budgets_unchanged (now : JDate) (uid : Nat) (s : SysState) :
    (executePass now uid s).budgets = s.budgets := rfl

/-- Every month length lies between 28 and 31 days. -/
theorem daysInMonth_bounds (y m : Int) : 28 ≤ daysInMonth y m ∧ daysInMonth y m ≤ 31 := by
  unfold daysInMonth
  split_ifs <;> omega

/-- Unfolding step of `rollDay` at fuel 4. -/
theorem rollDay4_eq (y m d : Int) :
    rollDay 4 y m d =
      if daysInMonth y m < d then
        (if m = 11 then rollDay 3 (y + 1) 0 (d - daysInMonth y m)
         else rollDay 3 y (m + 1) (d - daysInMonth y m))
      else ⟨y, m, d⟩ := rfl

/-- Unfolding step of `rollDay` at fuel 3. -/
theorem rollDay3_eq (y m d : Int) :
    rollDay 3 y m d =
      if daysInMonth y m < d then
        (if m = 11 then rollDay 2 (y + 1) 0 (d - daysInMonth y m)
         else rollDay 2 y (m + 1) (d - daysInMonth y m))
      else ⟨y, m, d⟩ := rfl

/-- `rollDay` with fuel 3 is the identity on a day that fits its month. -/
theorem rollDay3_of_fits (y m d : Int) (h : d ≤ daysInMonth y m) :
    rollDay 3 y m d = ⟨y, m, d⟩ := by
  rw [rollDay3_eq, if_neg (by omega)]

/-- `rollDay` with fuel 4 is the identity on a day that fits its month. -/
theorem rollDay4_of_fits (y m d : Int) (h : d ≤ daysInMonth y m) :
    rollDay 4 y m d = ⟨y, m, d⟩ := by
  rw [rollDay4_eq, if_neg (by omega)]

/-- A day exceeding its month by at most 28 rolls exactly once, into the
first days of the following month. -/
theorem rollDay4_of_once (y m d : Int) (hlt : daysInMonth y m < d)
    (hsm : d - daysInMonth y m ≤ 28) :
    rollDay 4 y m d =
      if m = 11 then ⟨y + 1, 0, d - daysInMonth y m⟩
      else ⟨y, m + 1, d - daysInMonth y m⟩ := by
  have h28 := daysInMonth_bounds (y + 1) 0
  have h28' := daysInMonth_bounds y (m + 1)
  rw [rollDay4_eq, if_pos hlt]
  by_cases hm : m = 11
  · rw [if_pos hm, if_pos hm, rollDay3_of_fits _ _ _ (by omega)]
  · rw [if_neg hm, if_neg hm, rollDay3_of_fits _ _ _ (by omega)]

/-- `rollDay` never decreases the year. -/
theorem rollDay_year_ge (fuel : Nat) : ∀ y m d : Int, y ≤ (rollDay fuel y m d).year := by
  induction fuel with
  | zero => intro y m d; exact le_refl y
  | succ n ih =>
    intro y m d
    show y ≤ (if daysInMonth y m < d then
        (if m = 11 then rollDay n (y + 1) 0 (d - daysInMonth y m)
         else rollDay n y (m + 1) (d - daysInMonth y m))
      else (⟨y, m, d⟩ : JDate)).year
    split_ifs with h1 h2
    · exact le_trans (by omega) (ih (y + 1) 0 _)
    · exact ih y (m + 1) _
    · exact le_refl y

/-- A strictly smaller year decides `dateLt`. -/
theorem dateLt_of_year (a b : JDate) (h : a.year < b.year) : dateLt a b = true := by
  unfold dateLt
  rw [if_pos h]

/-- With equal years, a strictly smaller month decides `dateLt`. -/
theorem dateLt_of_month (a b : JDate) (hy : a.year = b.year) (h : a.month < b.month) :
    dateLt a b = true := by
  unfold dateLt
  rw [if_neg (by omega), if_neg (by omega), if_pos h]

/-- With equal years and months, a strictly smaller day decides `dateLt`. -/
theorem dateLt_of_day (a b : JDate) (hy : a.year = b.year) (hm : a.month = b.month)
    (h : a.day < b.day) : dateLt a b = true := by
  unfold dateLt
  rw [if_neg (by omega), if_neg (by omega), if_neg (by omega), if_neg (by omega)]
  exact decide_eq_true h

/-- `setDate` past a well-formed date by 1 to 28 days lands strictly
later. -/
theorem setDate_add_lt (dt : JDate) (k : Int) (hwf : WfDate dt)
    (hk1 : 1 ≤ k) (hk : k ≤ 28) :
    dateLt dt (setDate dt (dt.day + k)) = true := by
  obtain ⟨hm0, hm11, hd1, hdim⟩ := hwf
  unfold setDate
  by_cases h : dt.day + k ≤ daysInMonth dt.year dt.month
  · rw [rollDay4_of_fits _ _ _ h]
    exact dateLt_of_day _ _ rfl rfl (by show dt.day < dt.day + k; omega)
  · rw [rollDay4_of_once _ _ _ (by omega) (by omega)]
    by_cases hm : dt.month = 11
    · rw [if_pos hm]
      exact dateLt_of_year _ _ (by show dt.year < dt.year + 1; omega)
    · rw [if_neg hm]
      exact dateLt_of_month _ _ rfl (by show dt.month < dt.month + 1; omega)

/-- Advancing a well-formed date to the following month with `setMonth`
lands strictly later in (year, month) order, on a day that fits the
resulting month. -/
theorem setMonth_succ_char (dt : JDate) (hwf : WfDate dt) :
    (dt.year < (setMonth dt (dt.month + 1)).year ∨
      ((setMonth dt (dt.month + 1)).year = dt.year ∧
        dt.month < (setMonth dt (dt.month + 1)).month)) ∧
    1 ≤ (setMonth dt (dt.month + 1)).day ∧
    (setMonth dt (dt.month + 1)).day ≤
      daysInMonth (setMonth dt (dt.month + 1)).year (setMonth dt (dt.month + 1)).month := by
  obtain ⟨hm0, hm11, hd1, hdim⟩ := hwf
  have hb := daysInMonth_bounds dt.year dt.month
  unfold setMonth
  by_cases hm : dt.month = 11
  · have e1 : (dt.month + 1) / 12 = 1 := by omega
    have e2 : (dt.month + 1) % 12 = 0 := by omega
    rw [e1, e2]
    have h31 : daysInMonth (dt.year + 1) 0 = 31 := by unfold daysInMonth; norm_num
    have h31' : daysInMonth dt.year dt.month = 31 := by
      rw [hm]; unfold daysInMonth; norm_num
    rw [rollDay4_of_fits _ _ _ (by omega)]
    refine ⟨Or.inl (by dsimp only <;> omega), by dsimp only <;> omega, by dsimp only <;> omega⟩
  · have e1 : (dt.month + 1) / 12 = 0 := by omega
    have e2 : (dt.month + 1) % 12 = dt.month + 1 := by omega
    rw [e1, e2, add_zero]
    have hb' := daysInMonth_bounds dt.year (dt.month + 1)
    by_cases hfits : dt.day ≤ daysInMonth dt.year (dt.month + 1)
    · rw [rollDay4_of_fits _ _ _ hfits]
      refine ⟨Or.inr ⟨by dsimp only <;> omega, by dsimp only <;> omega⟩,
        by dsimp only <;> omega, by dsimp only <;> omega⟩
    · rw [rollDay4_of_once _ _ _ (by omega) (by omega)]
      by_cases hm10 : dt.month + 1 = 11
      · rw [if_pos hm10]
        have hb0 := daysInMonth_bounds (dt.year + 1) 0
        refine ⟨Or.inl (by dsimp only <;> omega), by dsimp only <;> omega, by dsimp only <;> omega⟩
      · rw [if_neg hm10]
        have hb2 := daysInMonth_bounds dt.year (dt.month + 1 + 1)
        refine ⟨Or.inr ⟨by dsimp only <;> omega, by dsimp only <;> omega⟩,
          by dsimp only <;> omega, by dsimp only <;> omega⟩

/-- The monthly branch of `calculateNextExecution` lands strictly later
than any well-formed current date, for any anchor day of month `≥ 1`. -/
theorem monthly_branch_lt (dt : JDate) (dom : Int) (hwf : WfDate dt) :
    dateLt dt (setDate (setMonth dt (dt.month + 1))
      (min dom (daysInMonth (setMonth dt (dt.month + 1)).year
                  (setMonth dt (dt.month + 1)).month))) = true := by
  obtain ⟨hord, hday1, hdayle⟩ := setMonth_succ_char dt hwf
  have hbX := daysInMonth_bounds (setMonth dt (dt.month + 1)).year
      (setMonth dt (dt.month + 1)).month
  unfold setDate
  rw [rollDay4_of_fits _ _ _ (by omega)]
  rcases hord with hy | ⟨hy, hm⟩
  · exact dateLt_of_year _ _ (by dsimp only <;> omega)
  · exact dateLt_of_month _ _ (by dsimp only <;> omega) (by dsimp only <;> omega)

/-- The yearly branch of `calculateNextExecution` lands in a strictly
later year than the current date, for any anchor month `1..12`. -/
theorem yearly_branch_lt (dt : JDate) (md : Int × Int) (h1 : 1 ≤ md.1) (h12 : md.1 ≤ 12) :
    dateLt dt (setDate (setMonth (setFullYear dt (dt.year + 1)) (md.1 - 1)) md.2) = true := by
  have hA : dt.year + 1 ≤ (setFullYear dt (dt.year + 1)).year := by
    unfold setFullYear; exact rollDay_year_ge 4 _ _ _
  have hB : (setFullYear dt (dt.year + 1)).year ≤
      (setMonth (setFullYear dt (dt.year + 1)) (md.1 - 1)).year := by
    unfold setMonth
    have e1 : (md.1 - 1) / 12 = 0 := by omega
    rw [e1]
    have h := rollDay_year_ge 4 ((setFullYear dt (dt.year + 1)).year + 0)
      ((md.1 - 1) % 12) (setFullYear dt (dt.year + 1)).day
    omega
  have hC : (setMonth (setFullYear dt (dt.year + 1)) (md.1 - 1)).year ≤
      (setDate (setMonth (setFullYear dt (dt.year + 1)) (md.1 - 1)) md.2).year := by
    unfold setDate; exact rollDay_year_ge 4 _ _ _
  exact dateLt_of_year _ _ (by omega)

/-- The weekday returned by `getDay` lies in `0..6`. -/
theorem getDay_bounds (dt : JDate) : 0 ≤ getDay dt ∧ getDay dt < 7 := by
  unfold getDay
  exact ⟨Int.emod_nonneg _ (by norm_num), Int.emod_lt_of_pos _ (by norm_num)⟩

/-- Claim C4: for every well-formed current date and valid
frequency-specific anchor, `calculateNextExecution` returns a date
strictly later than the current one; in particular, a weekly schedule
whose current date already falls on the anchor weekday advances a full 7
days, never returning the same date. -/
theorem c4_strict_advancement (dt : JDate) (f : Frequency) (dow dom : Int)
    (doy : Int × Int) (hwf : WfDate dt) (ha : anchorValid f dow dom doy) :
    dateLt dt (calculateNextExecution dt f dow dom doy) = true ∧
    (f = .weekly → dow = getDay dt →
      calculateNextExecution dt f dow dom doy = setDate dt (dt.day + 7)) := by
  constructor
  · cases f with
    | daily => exact setDate_add_lt dt 1 hwf (by omega) (by omega)
    | weekly =>
      obtain ⟨h0, h6⟩ := ha
      have hg := getDay_bounds dt
      have hmod0 : 0 ≤ (dow + 7 - getDay dt) % 7 := Int.emod_nonneg _ (by norm_num)
      have hmod7 : (dow + 7 - getDay dt) % 7 < 7 := Int.emod_lt_of_pos _ (by norm_num)
      show dateLt dt (setDate dt (dt.day +
        (if (dow + 7 - getDay dt) % 7 = 0 then 7 else (dow + 7 - getDay dt) % 7))) = true
      by_cases hz : (dow + 7 - getDay dt) % 7 = 0
      · rw [if_pos hz]; exact setDate_add_lt dt 7 hwf (by omega) (by omega)
      · rw [if_neg hz]; exact setDate_add_lt dt _ hwf (by omega) (by omega)
    | monthly =>
      exact monthly_branch_lt dt dom hwf
    | yearly =>
      obtain ⟨h1, h2, h3, h4⟩ := ha
      exact yearly_branch_lt dt doy h1 h2
  · intro hf hdow
    subst hf
    show setDate dt (dt.day +
      (if (dow + 7 - getDay dt) % 7 = 0 then 7 else (dow + 7 - getDay dt) % 7)) =
      setDate dt (dt.day + 7)
    rw [hdow]
    have hz : (getDay dt + 7 - getDay dt) % 7 = 0 := by omega
    rw [if_pos hz]

/-- Witness for C4 at a concrete input: 2024-10-11 falls on a Friday
(weekday 5); with a weekly anchor of 5 the next occurrence is a strict
advance, namely a full 7 days later. -/
theorem c4_witness :
    WfDate ⟨2024, 9, 11⟩ ∧ anchorValid .weekly 5 1 (1, 1) ∧
    dateLt ⟨2024, 9, 11⟩ (calculateNextExecution ⟨2024, 9, 11⟩ .weekly 5 1 (1, 1)) = true ∧
    calculateNextExecution ⟨2024, 9, 11⟩ .weekly 5 1 (1, 1) = setDate ⟨2024, 9, 11⟩ (11 + 7) :=
  ⟨by decide, by decide,
   (c4_strict_advancement ⟨2024, 9, 11⟩ .weekly 5 1 (1, 1) (by decide) (by decide)).1,
   (c4_strict_advancement ⟨2024, 9, 11⟩ .weekly 5 1 (1, 1) (by decide) (by decide)).2
     rfl (by decide)⟩

/-- `calculateSpent` always equals the plain sum over the matched
transactions: the aggregation pipeline's empty-result fallback to `0`
coincides with the empty sum. -/
theorem calculateSpent_eq_sum (b : Budget) (txs : List Transaction) :
    calculateSpent b txs = ((txs.filter (spentMatch b)).map (fun t => t.amount)).sum := by
  unfold calculateSpent
  by_cases h : (txs.filter (spentMatch b)).isEmpty
  · rw [if_pos h, List.isEmpty_iff.mp h]
    rfl
  · rw [if_neg h]

/-- Claim C5: for every budget, `calculateSpent` returns exactly the sum
of `amount` over the transactions whose owner matches, category matches,
type is expense, status is completed, soft-delete flag is not set, and
date lies in the inclusive window `[startDate, endDate]`; in the spec's
scenario — matching expenses of 100, 50 and 25 plus a soft-deleted 999 in
range — it yields 175, ignoring the soft-deleted record, and an empty
store yields 0. -/
theorem c5_recompute_spent :
    (∀ (b : Budget) (txs : List Transaction),
      calculateSpent b txs = specRecomputeSpent b txs) ∧
    calculateSpent c5budget c5txs = 175 ∧
    calculateSpent c5budget [] = 0 := by
  refine ⟨?_, by decide, by decide⟩
  intro b txs
  rw [calculateSpent_eq_sum]
  unfold specRecomputeSpent
  congr 1
  congr 1
  apply List.filter_congr
  intro t _
  apply Bool.eq_iff_iff.mpr
  unfold spentMatch
  simp only [Bool.and_eq_true, beq_iff_eq, Bool.not_eq_true', decide_eq_true_eq]
  tauto

/-- Claim C6: for every pair of dates with `to` not before `from`, the
code's `monthsDiff` equals the spec's `monthsBetween` formula — base
month distance, plus one when `to.day > from.day`, floored at one — and
`monthsDiff` of a date with itself is `1`. -/
theorem c6_months_between :
    (∀ f t : JDate, dateLe f t = true → monthsDiff f t = monthsBetweenSpec f t) ∧
    (∀ d : JDate, monthsDiff d d = 1) := by
  constructor
  · intro f t _
    unfold monthsDiff monthsBetweenSpec
    dsimp only
    split_ifs <;> omega
  · intro d
    unfold monthsDiff
    dsimp only
    split_ifs <;> omega

/-- Witness for C6 at concrete inputs: `monthsDiff` from 2024-01-15 to
2024-03-20 agrees with the spec formula (both give 3), and
`monthsDiff(now, now) = 1` at 2024-01-15. -/
theorem c6_witness :
    dateLe ⟨2024, 0, 15⟩ ⟨2024, 2, 20⟩ = true ∧
    monthsDiff ⟨2024, 0, 15⟩ ⟨2024, 2, 20⟩ = monthsBetweenSpec ⟨2024, 0, 15⟩ ⟨2024, 2, 20⟩ ∧
    monthsDiff ⟨2024, 0, 15⟩ ⟨2024, 0, 15⟩ = 1 :=
  ⟨by decide, c6_months_between.1 ⟨2024, 0, 15⟩ ⟨2024, 2, 20⟩ (by decide),
   c6_months_between.2 ⟨2024, 0, 15⟩⟩

/-- Removing the contribution that `find?` locates subtracts exactly its
amount from the total. -/
theorem sum_pullContribution (cid : Nat) (l : List Contribution) (c : Contribution)
    (h : l.find? (fun x => x.id == cid) = some c) :
    ((pullContribution cid l).map (fun x => x.amount)).sum
      = (l.map (fun x => x.amount)).sum - c.amount := by
  induction l with
  | nil => simp [List.find?] at h
  | cons a l ih =>
    by_cases ha : a.id = cid
    · rw [List.find?_cons_of_pos _ (by simp [ha])] at h
      have hac : a = c := by injection h
      subst hac
      simp only [pullContribution, if_pos ha, List.map_cons, List.sum_cons]
      omega
    · rw [List.find?_cons_of_neg _ (by simp [ha])] at h
      simp only [pullContribution, if_neg ha, List.map_cons, List.sum_cons, ih h]
      omega

/-- A successful `preSave` never changes the monetary state: it only
touches `status` and `completedAt`. -/
theorem preSave_fields (now : JDate) (g g' : Goal) (h : preSave now g = Except.ok g') :
    g'.currentAmount = g.currentAmount ∧ g'.contributions = g.contributions := by
  unfold preSave at h
  split_ifs at h <;>
    first
      | exact Except.noConfusion h
      | (injection h with h2; subst h2; exact ⟨rfl, rfl⟩)

/-- A single ledger operation — successful or rejected — preserves the
invariant that `currentAmount` is the sum of the contribution amounts. -/
theorem applyGoalOp_preserves (g : Goal) (op : GoalOp)
    (h : g.currentAmount = sumContributions g) :
    (applyGoalOp g op).currentAmount = sumContributions (applyGoalOp g op) := by
  cases op with
  | add now cid amount note auto =>
    simp only [applyGoalOp]
    cases hres : addContribution g now cid amount note auto with
    | error e => exact h
    | ok g' =>
      dsimp only
      unfold addContribution at hres
      split_ifs at hres with h1 h2
      dsimp only at hres
      split_ifs at hres with hc <;>
      · obtain ⟨hcur, hcontrib⟩ := preSave_fields _ _ _ hres
        unfold sumContributions
        rw [hcontrib]
        dsimp only at hcur ⊢
        simp only [List.map_append, List.sum_append, List.map_cons, List.map_nil,
          List.sum_cons, List.sum_nil]
        unfold sumContributions at h
        omega
  | remove now cid =>
    simp only [applyGoalOp]
    cases hres : removeContribution g now cid with
    | error e => exact h
    | ok g' =>
      dsimp only
      unfold removeContribution at hres
      cases hfind : g.contributions.find? (fun c => c.id == cid) with
      | none => rw [hfind] at hres; exact Except.noConfusion hres
      | some c =>
        rw [hfind] at hres
        dsimp only at hres
        have hsum := sum_pullContribution cid g.contributions c hfind
        split_ifs at hres with hrevert <;>
        · obtain ⟨hcur, hcontrib⟩ := preSave_fields _ _ _ hres
          unfold sumContributions
          rw [hcontrib]
          dsimp only at hcur ⊢
          unfold sumContributions at h
          omega

/-- Claim C7: for every goal whose `currentAmount` equals the sum of its
contribution amounts, after any finite sequence of `addContribution` /
`removeContribution` calls (successful or rejected), `currentAmount`
still equals the exact sum of the remaining contributions' amounts. -/
theorem c7_ledger_invariant (g : Goal) (ops : List GoalOp)
    (h : g.currentAmount = sumContributions g) :
    (applyGoalOps g ops).currentAmount = sumContributions (applyGoalOps g ops) := by
  induction ops generalizing g with
  | nil => exact h
  | cons op ops ih =>
    show (applyGoalOps (applyGoalOp g op) ops).currentAmount
      = sumContributions (applyGoalOps (applyGoalOp g op) ops)
    exact ih (applyGoalOp g op) (applyGoalOp_preserves g op h)

/-- Witness for C7: the concrete goal `c9goal` (one recorded contribution
of 900) run through an add of 150, a removal of it, and a rejected add of
a non-positive amount keeps `currentAmount` equal to the contribution
sum. -/
theorem c7_witness :
    c9goal.currentAmount = sumContributions c9goal ∧
    (applyGoalOps c9goal
        [.add ⟨2024, 1, 1⟩ 2 150 "" false, .remove ⟨2024, 1, 2⟩ 2,
         .add ⟨2024, 1, 3⟩ 3 (-5) "" false]).currentAmount
      = sumContributions (applyGoalOps c9goal
        [.add ⟨2024, 1, 1⟩ 2 150 "" false, .remove ⟨2024, 1, 2⟩ 2,
         .add ⟨2024, 1, 3⟩ 3 (-5) "" false]) :=
  ⟨by decide, c7_ledger_invariant c9goal _ (by decide)⟩

/-- Claim C8: `addContribution` reports a domain error if and only if the
amount is non-positive or the goal is not active; in every error case the
persisted goal is completely unchanged, and in the success case the
contribution is appended. -/
theorem c8_add_guard (g : Goal) (now : JDate) (cid : Nat) (amount : Int)
    (note : String) (auto : Bool)
    (hdates : dateLe g.targetDate g.startDate = false) :
    ((∃ g', addContribution g now cid amount note auto = Except.ok g') ↔
      (0 < amount ∧ g.status = GoalStatus.active)) ∧
    (∀ e, addContribution g now cid amount note auto = Except.error e →
      applyGoalOp g (.add now cid amount note auto) = g) ∧
    (∀ g', addContribution g now cid amount note auto = Except.ok g' →
      g'.contributions = g.contributions ++
        [{ id := cid, amount := amount, date := now, note := note, isAutomatic := auto }]) := by
  refine ⟨⟨?_, ?_⟩, ?_, ?_⟩
  · rintro ⟨g', hg⟩
    unfold addContribution at hg
    split_ifs at hg with h1 h2
    exact ⟨by omega, not_not.mp h2⟩
  · rintro ⟨hpos, hactive⟩
    unfold addContribution preSave
    rw [if_neg (by omega), if_neg (by simp [hactive])]
    dsimp only
    split_ifs with hc hd he hf <;>
      first
        | exact ⟨_, rfl⟩
        | (rw [hdates] at hd; exact Bool.noConfusion hd)
        | (rw [hdates] at hf; exact Bool.noConfusion hf)
  · intro e he
    simp only [applyGoalOp, he]
  · intro g' hg
    unfold addContribution at hg
    split_ifs at hg with h1 h2
    dsimp only at hg
    split_ifs at hg with hc <;>
    · obtain ⟨-, hcontrib⟩ := preSave_fields _ _ _ hg
      exact hcontrib

/-- In a contribution list extended with a fresh id, `find?` by that id
locates exactly the appended contribution. -/
theorem find?_append_fresh (l : List Contribution) (c : Contribution) (cid : Nat)
    (hfresh : ∀ x ∈ l, x.id ≠ cid) (hc : c.id = cid) :
    (l ++ [c]).find? (fun x => x.id == cid) = some c := by
  induction l with
  | nil => simp [List.find?, hc]
  | cons a l ih =>
    rw [List.cons_append, List.find?_cons_of_neg _ (by simp [hfresh a (by simp)])]
    exact ih (fun x hx => hfresh x (by simp [hx]))

/-- Pulling a fresh id from an extended contribution list removes exactly
the appended contribution. -/
theorem pull_append_fresh (l : List Contribution) (c : Contribution) (cid : Nat)
    (hfresh : ∀ x ∈ l, x.id ≠ cid) (hc : c.id = cid) :
    pullContribution cid (l ++ [c]) = l := by
  induction l with
  | nil => simp [pullContribution, hc]
  | cons a l ih =>
    rw [List.cons_append]
    simp only [pullContribution, if_neg (hfresh a (by simp))]
    rw [ih (fun x hx => hfresh x (by simp [hx]))]

/-- Witness for C8: applied to the concrete goal `c9goal` and a positive
amount on an active goal, the success condition of the guard holds. -/
theorem c8_witness :
    dateLe c9goal.targetDate c9goal.startDate = false ∧
    ((∃ g', addContribution c9goal ⟨2024, 0, 5⟩ 2 150 "" false = Except.ok g') ↔
      (0 < (150 : Int) ∧ c9goal.status = GoalStatus.active)) :=
  ⟨by decide, (c8_add_guard c9goal ⟨2024, 0, 5⟩ 2 150 "" false (by decide)).1⟩

/-- Claim C9: on an active goal, a contribution that raises
`currentAmount` to at least `targetAmount` completes the goal and stamps
`completedAt`; removing that same contribution restores the previous
`currentAmount`, reverts the status to active and clears `completedAt`. -/
theorem c9_completion_roundtrip (g : Goal) (now now2 : JDate) (cid : Nat)
    (amount : Int) (note : String) (auto : Bool)
    (hactive : g.status = GoalStatus.active) (hpos : 0 < amount)
    (hreach : g.targetAmount ≤ g.currentAmount + amount)
    (hbelow : g.currentAmount < g.targetAmount)
    (hfresh : ∀ c ∈ g.contributions, c.id ≠ cid)
    (hdates : dateLe g.targetDate g.startDate = false) :
    ∃ g1 g2,
      addContribution g now cid amount note auto = Except.ok g1 ∧
      g1.currentAmount = g.currentAmount + amount ∧
      g1.status = GoalStatus.completed ∧
      g1.completedAt = some now ∧
      removeContribution g1 now2 cid = Except.ok g2 ∧
      g2.currentAmount = g.currentAmount ∧
      g2.status = GoalStatus.active ∧
      g2.completedAt = none := by
  have hadd : addContribution g now cid amount note auto = Except.ok
      { g with contributions := g.contributions ++
                 [({ id := cid, amount := amount, date := now, note := note,
                     isAutomatic := auto } : Contribution)]
               currentAmount := g.currentAmount + amount
               lastContribution := some now
               status := .completed
               completedAt := some now } := by
    unfold addContribution
    rw [if_neg (by omega), if_neg (by simp [hactive])]
    dsimp only
    rw [if_pos (by first | omega | (dsimp only; omega))]
    unfold preSave
    rw [if_neg (by dsimp only; rw [hdates]; exact Bool.false_ne_true),
      if_neg (by dsimp only; rintro ⟨-, hco⟩; exact GoalStatus.noConfusion hco)]
  have hfind : ((g.contributions ++
      [({ id := cid, amount := amount, date := now, note := note,
          isAutomatic := auto } : Contribution)]).find? (fun x => x.id == cid)) = some
      ({ id := cid, amount := amount, date := now, note := note,
         isAutomatic := auto } : Contribution) :=
    find?_append_fresh g.contributions
      ({ id := cid, amount := amount, date := now, note := note,
         isAutomatic := auto } : Contribution) cid hfresh rfl
  have hpull : pullContribution cid (g.contributions ++
      [({ id := cid, amount := amount, date := now, note := note,
          isAutomatic := auto } : Contribution)]) = g.contributions :=
    pull_append_fresh g.contributions
      ({ id := cid, amount := amount, date := now, note := note,
         isAutomatic := auto } : Contribution) cid hfresh rfl
  have hrem : removeContribution
      { g with contributions := g.contributions ++
                 [({ id := cid, amount := amount, date := now, note := note,
                     isAutomatic := auto } : Contribution)]
               currentAmount := g.currentAmount + amount
               lastContribution := some now
               status := .completed
               completedAt := some now } now2 cid = Except.ok
      { g with contributions := pullContribution cid (g.contributions ++
                 [({ id := cid, amount := amount, date := now, note := note,
                     isAutomatic := auto } : Contribution)])
               currentAmount := g.currentAmount + amount - amount
               lastContribution := some now
               status := .active
               completedAt := none } := by
    unfold removeContribution
    dsimp only
    rw [hfind]
    dsimp only
    rw [if_pos ⟨rfl, by first | omega | (dsimp only; omega)⟩]
    unfold preSave
    rw [if_neg (by dsimp only; rw [hdates]; exact Bool.false_ne_true),
      if_neg (by dsimp only; rintro ⟨hc1, -⟩; omega)]
  exact ⟨_, _, hadd, rfl, rfl, rfl, hrem,
    by first | omega | (dsimp only; omega), rfl, rfl⟩

/-- Witness for C9: the spec's scenario — target 1000, current 900,
contribute 150 then remove that same contribution. -/
theorem c9_witness :
    ∃ g1 g2,
      addContribution c9goal ⟨2024, 1, 1⟩ 2 150 "" false = Except.ok g1 ∧
      g1.currentAmount = c9goal.currentAmount + 150 ∧
      g1.status = GoalStatus.completed ∧
      g1.completedAt = some ⟨2024, 1, 1⟩ ∧
      removeContribution g1 ⟨2024, 1, 2⟩ 2 = Except.ok g2 ∧
      g2.currentAmount = c9goal.currentAmount ∧
      g2.status = GoalStatus.active ∧
      g2.completedAt = none :=
  c9_completion_roundtrip c9goal ⟨2024, 1, 1⟩ ⟨2024, 1, 2⟩ 2 150 "" false
    (by decide) (by decide) (by decide) (by decide) (by decide) (by decide)

/-- Filtering a mapped list is mapping the list filtered through the
composed predicate. -/
theorem filter_map_eq {α β : Type} (l : List α) (f : α → β) (p : β → Bool) :
    (l.map f).filter p = (l.filter (fun x => p (f x))).map f := by
  induction l with
  | nil => rfl
  | cons a l ih =>
    by_cases h : p (f a) <;> simp [List.filter_cons, h, ih]

/-- In a list of definitions with pairwise-distinct ids, filtering by a
member's id yields exactly that member. -/
theorem filter_id_singleton (l : List RecurringTransaction) (r : RecurringTransaction)
    (hnd : (l.map (fun x => x.id)).Nodup) (hmem : r ∈ l) :
    l.filter (fun x => x.id == r.id) = [r] := by
  induction l with
  | nil => cases hmem
  | cons a l ih =>
    rw [List.map_cons, List.nodup_cons] at hnd
    rcases List.mem_cons.mp hmem with h | h
    · subst h
      rw [List.filter_cons_of_pos (by simp)]
      rw [List.filter_eq_nil_iff.mpr ?_]
      · intro x hx
        simp only [beq_iff_eq]
        intro he
        exact hnd.1 (he ▸ List.mem_map_of_mem _ hx)
    · have hne : a.id ≠ r.id := fun he => hnd.1 (he ▸ List.mem_map_of_mem _ h)
      rw [List.filter_cons_of_neg (by simp [hne])]
      exact ih hnd.2 h

/-- The advanced definition keeps its id. -/
theorem executeStep_id (r : RecurringTransaction) : ((executeStep r).2).id = r.id := by
  unfold executeStep
  dsimp only
  split_ifs <;> rfl

/-- The advanced definition's schedule state: `nextExecution` moved by
exactly one `calculateNextExecution` step, `executionCount` incremented by
exactly one, `lastExecution` stamped at the materialized occurrence. -/
theorem executeStep_fields (r : RecurringTransaction) :
    ((executeStep r).2).nextExecution
      = calculateNextExecution r.nextExecution r.frequency r.dayOfWeek r.dayOfMonth r.dayOfYear ∧
    ((executeStep r).2).executionCount = r.executionCount + 1 ∧
    ((executeStep r).2).lastExecution = some r.nextExecution := by
  unfold executeStep
  dsimp only
  split_ifs <;> exact ⟨rfl, rfl, rfl⟩

/-- Claim C10: a single execute pass materializes exactly one transaction
per due definition — dated at the definition's current `nextExecution` —
and advances `nextExecution` by exactly one frequency step, regardless of
how far in the past `nextExecution` lies; overdue occurrences are never
caught up within one pass. -/
theorem c10_single_materialization (now : JDate) (uid : Nat) (s : SysState)
    (r : RecurringTransaction) (hmem : r ∈ s.recurrings)
    (hpend : isPending now uid r = true)
    (hnd : (s.recurrings.map (fun x => x.id)).Nodup) :
    (executePass now uid s).transactions.filter (fun t => t.recurringId == some r.id)
      = s.transactions.filter (fun t => t.recurringId == some r.id) ++ [materialize r] ∧
    (materialize r).date = r.nextExecution ∧
    (executePass now uid s).recurrings.filter (fun x => x.id == r.id) = [(executeStep r).2] ∧
    ((executeStep r).2).nextExecution
      = calculateNextExecution r.nextExecution r.frequency r.dayOfWeek r.dayOfMonth r.dayOfYear ∧
    ((executeStep r).2).executionCount = r.executionCount + 1 := by
  have hpendnd : ((s.recurrings.filter (isPending now uid)).map (fun x => x.id)).Nodup :=
    List.Nodup.sublist (List.Sublist.map _ (List.filter_sublist s.recurrings)) hnd
  have hpendmem : r ∈ s.recurrings.filter (isPending now uid) :=
    List.mem_filter.mpr ⟨hmem, hpend⟩
  refine ⟨?_, rfl, ?_, (executeStep_fields r).1, (executeStep_fields r).2.1⟩
  · show (s.transactions ++
        (s.recurrings.filter (isPending now uid)).map (fun x => (executeStep x).1)).filter
          (fun t => t.recurringId == some r.id) = _
    rw [List.filter_append]
    congr 1
    rw [filter_map_eq]
    rw [show List.filter (fun x => ((executeStep x).1).recurringId == some r.id)
          (List.filter (isPending now uid) s.recurrings) = [r]
        from filter_id_singleton _ r hpendnd hpendmem]
    rfl
  · show ((s.recurrings.map (fun x =>
        if isPending now uid x then (executeStep x).2 else x)).filter
          (fun x => x.id == r.id)) = _
    rw [filter_map_eq]
    have hcongr : List.filter
        (fun x => ((if isPending now uid x then (executeStep x).2 else x).id == r.id))
        s.recurrings = List.filter (fun x => x.id == r.id) s.recurrings :=
      List.filter_congr (fun x _ => by
        by_cases h : isPending now uid x
        · simp only [if_pos h, executeStep_id x]
        · simp only [if_neg h])
    rw [hcongr, filter_id_singleton _ r hnd hmem]
    simp only [List.map_cons, List.map_nil, if_pos hpend]

/-- Witness for C10: the single daily definition in `c10state` is more
than a year overdue at `c10now`, and the pass still materializes exactly
one transaction for it, dated 2023-01-05, advancing `nextExecution` by a
single day-step. -/
theorem c10_witness :
    c10rec ∈ c10state.recurrings ∧ isPending c10now 1 c10rec = true ∧
    (executePass c10now 1 c10state).transactions.filter
        (fun t => t.recurringId == some c10rec.id)
      = c10state.transactions.filter (fun t => t.recurringId == some c10rec.id)
        ++ [materialize c10rec] ∧
    (materialize c10rec).date = c10rec.nextExecution :=
  ⟨by decide, by decide,
   (c10_single_materialization c10now 1 c10state c10rec (by decide) (by decide)
      (by decide)).1,
   (c10_single_materialization c10now 1 c10state c10rec (by decide) (by decide)
      (by decide)).2.1⟩
